import Mathlib

/-!
# Verification of the yt_scribe core against its specification

This file gives a shallow embedding of the algorithmic core of the
`yt_scribe` repository (the embedding codec in `db.py`, the VTT caption
parser in `core.py`, and the SQLite persistence layer in `db.py`) and
proves, or refutes, the specified properties of those components.

Modelling conventions:

* 32-bit floats are modelled by their IEEE-754 bit patterns, i.e. natural
  numbers below `2 ^ 32`; bytes are natural numbers below `256`.  The codec
  (`struct.pack "<f"*n` / `struct.unpack`) only moves bit patterns, so this
  captures it exactly.
* Python `float` values carried around by the parser and the database are
  modelled by exact rationals (the parser only ever produces exact decimal
  fractions; the database only stores and compares the numbers it is
  given).  Rounding of `float` arithmetic is abstracted away.
* SQLite state is modelled explicitly: base tables as lists of rows in
  insertion order, the AUTOINCREMENT counter as a field, and the FTS5
  mirror tables (whose triggers fire inside the same transaction) as
  further lists.  The `with sqlite3.connect(...)` context manager used by
  `store_video` commits on success and rolls back on an exception; it is
  modelled by running the statement sequence on a working copy of the
  state and discarding that copy on failure.
-/

namespace YtScribe

/-! ## VectorCodec: `encode` / `decode` from `db.py`

`encode(values)` is `struct.pack("<" + "f" * len(values), *values)`:
each value becomes its 4 little-endian bytes, concatenated with no header
and no length prefix.  `decode(binary)` is
`struct.unpack("<" + "f" * (len(binary) // 4), binary)`, which raises a
format error whenever `len(binary)` is not `4 * (len(binary) // 4)`,
i.e. not a multiple of 4. -/

/-- The 4 little-endian bytes of one 32-bit word (one packed float). -/
def encodeWord (w : Nat) : List Nat :=
  [w % 256, w / 256 % 256, w / 65536 % 256, w / 16777216 % 256]

/-- `encode` from `db.py`: concatenation of the 4-byte little-endian
encodings of the values, no header, no length prefix. -/
def encode : List Nat → List Nat
  | [] => []
  | w :: rest => encodeWord w ++ encode rest

/-- The error raised by `struct.unpack` when the buffer length does not
match the format string built from `len(binary) // 4` floats. -/
inductive FormatError where
  | lengthNotMultipleOf4
deriving DecidableEq, Repr

/-- Regroup a byte sequence into little-endian 32-bit words. -/
def decodeWords : List Nat → List Nat
  | b0 :: b1 :: b2 :: b3 :: rest =>
      (b0 + 256 * b1 + 65536 * b2 + 16777216 * b3) :: decodeWords rest
  | _ => []

/-- `decode` from `db.py`: fails unless the byte count is a multiple of 4,
otherwise reads back the little-endian 32-bit words. -/
def decode (binary : List Nat) : Except FormatError (List Nat) :=
  if binary.length % 4 = 0 then .ok (decodeWords binary)
  else .error .lengthNotMultipleOf4

theorem encode_length (v : List Nat) : (encode v).length = 4 * v.length := by
  induction v with
  | nil => rfl
  | cons w rest ih =>
      simp [encode, encodeWord, ih]
      omega

theorem decodeWords_encode (v : List Nat) (h : ∀ w ∈ v, w < 2 ^ 32) :
    decodeWords (encode v) = v := by
  induction v with
  | nil => rfl
  | cons w rest ih =>
      have hw : w < 2 ^ 32 := h w (List.mem_cons_self w rest)
      have hrest : ∀ x ∈ rest, x < 2 ^ 32 := fun x hx => h x (List.mem_cons_of_mem w hx)
      have harith : w % 256 + 256 * (w / 256 % 256) + 65536 * (w / 65536 % 256) +
          16777216 * (w / 16777216 % 256) = w := by omega
      simp only [encode, encodeWord, List.cons_append, List.nil_append, decodeWords, harith]
      simpa using ih hrest

/-- C3: for every finite sequence `v` of 32-bit float values (identified with
their bit patterns, i.e. naturals below `2 ^ 32`), `decode (encode v)`
returns exactly `v`, and `encode` produces exactly 4 bytes per value (the
little-endian layout and the absence of any header or length prefix are
visible in the definition of `encode`). -/
theorem decode_encode_roundtrip (v : List Nat) (h : ∀ w ∈ v, w < 2 ^ 32) :
    decode (encode v) = .ok v ∧ (encode v).length = 4 * v.length := by
  refine ⟨?_, encode_length v⟩
  have hlen : (encode v).length % 4 = 0 := by simp [encode_length]
  simp [decode, hlen, decodeWords_encode v h]

/-- Witness for C3 at a concrete vector (bit patterns of 1.0f, 0.0f and
the largest 32-bit pattern). -/
theorem decode_encode_roundtrip_witness :
    decode (encode [1065353216, 0, 4294967295]) = .ok [1065353216, 0, 4294967295] ∧
      (encode [1065353216, 0, 4294967295]).length = 4 * 3 :=
  decode_encode_roundtrip [1065353216, 0, 4294967295] (by decide)

/-- C4: `decode` fails with a format error on every byte sequence whose
length is not a multiple of 4; it never silently returns a result there. -/
theorem decode_fails_on_bad_length (b : List Nat) (h : b.length % 4 ≠ 0) :
    decode b = .error .lengthNotMultipleOf4 := by
  simp [decode, h]

/-- Witness for C4 at a concrete 3-byte input. -/
theorem decode_fails_on_bad_length_witness :
    decode [0, 0, 0] = .error .lengthNotMultipleOf4 :=
  decode_fails_on_bad_length [0, 0, 0] (by decide)

/-! ## CaptionParser: `parse_vtt_transcript` from `core.py`

The parser strips the input, splits it on newlines, skips the header up to
the first blank line, and then runs a scanner over the remaining lines:
blank, purely numeric, and markup-containing lines are skipped; a line
matching the timing regex `(\d+:\d+:\d+\.\d+) --> (\d+:\d+:\d+\.\d+)`
flushes any buffered cue and (subject to the `if not current_start:`
truthiness test of the Python source) records the new start time; any
other line is buffered as cue text unless it repeats the text of the last
emitted entry.  Finally a dictionary comprehension deduplicates entries by
text.

Start times are exact decimal fractions `H*3600 + M*60 + SS.mmm`; they are
modelled by the pair (numerator, number of fractional digits), i.e. the
value `num / 10 ^ pow`.  Python's `float` rounding is abstracted away. -/

/-- An exact decimal number `num / 10 ^ pow`, modelling the `float` start
times produced by the parser (`float(h) * 3600 + float(m) * 60 + float(s)`
with `h`, `m` integral and `s` of the form `SS.mmm`). -/
structure Sec where
  num : Nat
  pow : Nat
deriving DecidableEq, Repr

/-- The rational value of a parsed start time. -/
def Sec.toQ (s : Sec) : ℚ := (s.num : ℚ) / 10 ^ s.pow

/-- One parsed caption entry, `{'start': ..., 'text': ...}` in the source. -/
structure VttEntry where
  start : Sec
  text : String
deriving DecidableEq, Repr

/-- The whitespace characters removed by Python's `str.strip`. -/
def pyIsSpace (c : Char) : Bool :=
  decide (c = ' ' ∨ c = '\t' ∨ c = '\n' ∨ c = '\r' ∨ c = Char.ofNat 11 ∨ c = Char.ofNat 12)

/-- Python `str.strip()`: drop leading and trailing whitespace. -/
def stripChars (l : List Char) : List Char :=
  ((l.dropWhile pyIsSpace).reverse.dropWhile pyIsSpace).reverse

/-- Python `str.split('\n')`: split on every newline, keeping empty
fragments (the split of the empty string is `[""]`). -/
def splitLinesNL : List Char → List (List Char)
  | [] => [[]]
  | c :: rest =>
      if c = '\n' then [] :: splitLinesNL rest
      else
        match splitLinesNL rest with
        | [] => [[c]]
        | g :: gs => (c :: g) :: gs

/-- ASCII decimal digit test (`\d` of the timing regex, `str.isdigit`). -/
def isDigitChar (c : Char) : Bool := decide ('0' ≤ c ∧ c ≤ '9')

/-- Python `str.isdigit()`: nonempty and all digits. -/
def pyIsDigit (l : List Char) : Bool := decide (l ≠ []) && l.all isDigitChar

/-- After a `<`, the regex `<[^>]+>` matches iff the first following `>`
is not immediately adjacent. -/
def tagAfterLt : List Char → Bool
  | [] => false
  | c :: rest => decide (c ≠ '>') && rest.contains '>'

/-- `re.search` of the markup pattern `<[^>]+>`. -/
def hasHtmlTag : List Char → Bool
  | [] => false
  | c :: rest => (decide (c = '<') && tagAfterLt rest) || hasHtmlTag rest

/-- Numeric value of a digit string. -/
def digitsToNat (l : List Char) : Nat := l.foldl (fun n c => 10 * n + (c.toNat - 48)) 0

/-- Parse one `\d+:\d+:\d+\.\d+` group as a prefix of the line, returning
hours, minutes, integral seconds, the fractional digit string, and the
rest of the line.  The regex is deterministic here: each `\d+` is a
maximal digit run because the following literal (`:`, `.` or space) can
never match a digit. -/
def parseTimingGroup (l : List Char) : Option ((Nat × Nat × Nat × List Char) × List Char) :=
  match l.span isDigitChar with
  | (h, r1) =>
    if h = [] then none else
    match r1 with
    | ':' :: r2 =>
      match r2.span isDigitChar with
      | (m, r3) =>
        if m = [] then none else
        match r3 with
        | ':' :: r4 =>
          match r4.span isDigitChar with
          | (sInt, r5) =>
            if sInt = [] then none else
            match r5 with
            | '.' :: r6 =>
              match r6.span isDigitChar with
              | (sFrac, r7) =>
                if sFrac = [] then none
                else some ((digitsToNat h, digitsToNat m, digitsToNat sInt, sFrac), r7)
            | _ => none
        | _ => none
    | _ => none

/-- `timestamp_pattern.match(line)` together with the seconds computation
on group 1: the anchored-prefix match of
`(\d+:\d+:\d+\.\d+) --> (\d+:\d+:\d+\.\d+)` (trailing text is allowed by
`re.match`), returning `h*3600 + m*60 + s` for the first timestamp. -/
def timingMatch (l : List Char) : Option Sec :=
  match parseTimingGroup l with
  | none => none
  | some ((h, m, sInt, sFrac), r) =>
      match r with
      | ' ' :: '-' :: '-' :: '>' :: ' ' :: r2 =>
          match parseTimingGroup r2 with
          | none => none
          | some _ =>
              some ⟨(h * 3600 + m * 60 + sInt) * 10 ^ sFrac.length + digitsToNat sFrac,
                sFrac.length⟩
      | _ => none

/-- The scanner state: emitted entries, the pending start time
(`current_start`, `none` for Python `None`) and the buffered text lines
(`current_text`). -/
structure ScanSt where
  entries : List VttEntry
  curStart : Option Sec
  curText : List (List Char)
deriving DecidableEq, Repr

/-- `' '.join(current_text).strip()`. -/
def mkCueText (bufs : List (List Char)) : String :=
  String.mk (stripChars (List.intercalate [' '] bufs))

/-- Python truthiness of `current_start` (`None` and `0.0` are falsy). -/
def startFalsy : Option Sec → Bool
  | none => true
  | some s => decide (s.num = 0)

/-- One iteration of the scanner loop of `parse_vtt_transcript`. -/
def stepLine (st : ScanSt) (rawLine : List Char) : ScanSt :=
  let line := stripChars rawLine
  if line = [] ∨ pyIsDigit line = true ∨ hasHtmlTag line = true then st
  else
    match timingMatch line with
    | some q =>
        let st1 :=
          if st.curStart ≠ none ∧ st.curText ≠ [] then
            { entries := st.entries ++ [⟨st.curStart.getD ⟨0, 0⟩, mkCueText st.curText⟩],
              curStart := none, curText := [] }
          else st
        if startFalsy st1.curStart then { st1 with curStart := some q } else st1
    | none =>
        match st.curStart with
        | some _ =>
            match st.entries.getLast? with
            | some e =>
                if e.text = String.mk line then st
                else { st with curText := st.curText ++ [line] }
            | none => { st with curText := st.curText ++ [line] }
        | none => st

/-- The lines of `vtt_data.strip().split('\n')`. -/
def vttLines (s : String) : List (List Char) := splitLinesNL (stripChars s.data)

/-- The lines after the header skip: everything after the first blank
line, or all lines when no blank line exists (`start_idx` stays 0). -/
def bodyLines (s : String) : List (List Char) :=
  let lines := vttLines s
  match lines.findIdx? (fun l => decide (stripChars l = [])) with
  | some i => lines.drop (i + 1)
  | none => lines

/-- The initial scanner state. -/
def initSt : ScanSt := ⟨[], none, []⟩

/-- Run the scanner over a list of lines. -/
def scanLines (st : ScanSt) (lines : List (List Char)) : ScanSt := lines.foldl stepLine st

/-- The entry list before deduplication: the scanner output plus the final
flush of any pending cue. -/
def rawEntries (s : String) : List VttEntry :=
  let fin := scanLines initSt (bodyLines s)
  if fin.curStart ≠ none ∧ fin.curText ≠ [] then
    fin.entries ++ [⟨fin.curStart.getD ⟨0, 0⟩, mkCueText fin.curText⟩]
  else fin.entries

/-- Python `list.index`: the first position holding an equal element;
`none` models the `ValueError` raised when the element is absent. -/
def pyIndex {α : Type} [DecidableEq α] (x : α) : List α → Option Nat
  | [] => none
  | e :: rest => if e = x then some 0 else (pyIndex x rest).map (· + 1)

/-- The filter condition of the dedup comprehension for one entry `d`:
`d['text'] not in {prev['text'] for prev in entries[:entries.index(d)]}`. -/
def pyKeepFlag (full : List VttEntry) (d : VttEntry) : Option Bool :=
  (pyIndex d full).map (fun i => decide (d.text ∉ (full.take i).map VttEntry.text))

/-- The filtering part of the dedup comprehension, iterated over the
entry list (with `full` the whole list consulted by `entries.index`). -/
def pyFilterAux (full : List VttEntry) : List VttEntry → Option (List VttEntry)
  | [] => some []
  | d :: rest =>
      match pyKeepFlag full d, pyFilterAux full rest with
      | some b, some r => some (if b then d :: r else r)
      | _, _ => none

/-- Python dict assignment `m[k] = v`: replace in place if the key exists
(keeping its position), otherwise append. -/
def dictUpsert (k : String) (v : VttEntry) :
    List (String × VttEntry) → List (String × VttEntry)
  | [] => [(k, v)]
  | (k', v') :: rest => if k' = k then (k', v) :: rest else (k', v') :: dictUpsert k v rest

/-- `list({d['text']: d for d in ...}.values())`: build the dict keyed by
text in iteration order and take its values. -/
def pyDictValues (l : List VttEntry) : List VttEntry :=
  (l.foldl (fun m d => dictUpsert d.text d m) []).map Prod.snd

/-- The dedup line of `parse_vtt_transcript`:
`entries_unique = list({d['text']: d for d in entries if d['text'] not in
{prev['text'] for prev in entries[:entries.index(d)]}}.values())`. -/
def pyDedup (l : List VttEntry) : Option (List VttEntry) :=
  (pyFilterAux l l).map pyDictValues

/-- `parse_vtt_transcript` from `core.py`: scan, then deduplicate.
`none` models an uncaught exception (shown below never to occur). -/
def parse_vtt_transcript (s : String) : Option (List VttEntry) :=
  pyDedup (rawEntries s)

/-- The specification's description of the dedup step: keep an entry iff
its text has not occurred earlier, remembering the texts seen so far. -/
def keepFirstByText (seen : List String) : List VttEntry → List VttEntry
  | [] => []
  | d :: rest =>
      if d.text ∈ seen then keepFirstByText seen rest
      else d :: keepFirstByText (d.text :: seen) rest

lemma pyIndex_isSome {α : Type} [DecidableEq α] (x : α) (l : List α) (h : x ∈ l) :
    ∃ i, pyIndex x l = some i := by
  induction l with
  | nil => cases h
  | cons e rest ih =>
      by_cases he : e = x
      · exact ⟨0, by simp [pyIndex, he]⟩
      · have hx : x ∈ rest := by
          rcases List.mem_cons.mp h with h' | h'
          · exact absurd h'.symm he
          · exact h'
        obtain ⟨i, hi⟩ := ih hx
        exact ⟨i + 1, by simp [pyIndex, he, hi]⟩

/-- The comprehension's filter condition holds for an entry of the list
exactly when that entry is the first entry carrying its text. -/
lemma pyKeepFlag_eq (full : List VttEntry) (d : VttEntry) (h : d ∈ full) :
    pyKeepFlag full d =
      some (decide (full.find? (fun e => decide (e.text = d.text)) = some d)) := by
  induction full with
  | nil => cases h
  | cons e rest ih =>
      by_cases he : e = d
      · subst he
        simp [pyKeepFlag, pyIndex, List.find?_cons_of_pos]
      · have hd : d ∈ rest := by
          rcases List.mem_cons.mp h with h' | h'
          · exact absurd h'.symm he
          · exact h'
        obtain ⟨i, hi⟩ := pyIndex_isSome d rest hd
        have hflag : pyKeepFlag (e :: rest) d =
            some (decide (d.text ∉ (e :: rest.take i).map VttEntry.text)) := by
          simp [pyKeepFlag, pyIndex, he, hi, List.take_succ_cons]
        by_cases ht : e.text = d.text
        · have hfind : (e :: rest).find? (fun x => decide (x.text = d.text)) = some e :=
            List.find?_cons_of_pos _ (by simpa using ht)
          have hmem : d.text ∈ (e :: rest.take i).map VttEntry.text := by
            simp [ht.symm]
          rw [hflag, hfind]
          have h1 : (decide (d.text ∉ (e :: rest.take i).map VttEntry.text)) = false :=
            decide_eq_false (not_not_intro hmem)
          have h2 : (decide ((some e : Option VttEntry) = some d)) = false := by
            simp [he]
          rw [h1, h2]
        · have hfind : (e :: rest).find? (fun x => decide (x.text = d.text)) =
              rest.find? (fun x => decide (x.text = d.text)) :=
            List.find?_cons_of_neg _ (by simpa using ht)
          have hrest : pyKeepFlag rest d =
              some (decide (d.text ∉ (rest.take i).map VttEntry.text)) := by
            simp [pyKeepFlag, hi]
          have hres := (ih hd).symm.trans hrest
          have hval : decide (rest.find? (fun e => decide (e.text = d.text)) = some d) =
              decide (d.text ∉ (rest.take i).map VttEntry.text) :=
            Option.some_inj.mp hres
          rw [hflag, hfind]
          have hne : (d.text ≠ e.text) := fun hh => ht hh.symm
          simp only [List.map_cons, List.mem_cons, hne, false_or]
          exact congrArg some hval.symm

/-- The filtering comprehension never hits the `ValueError` case and keeps
exactly the first entry of each text class. -/
lemma pyFilterAux_eq (full : List VttEntry) (l : List VttEntry) (h : ∀ d ∈ l, d ∈ full) :
    pyFilterAux full l = some (l.filter
      (fun d => decide (full.find? (fun e => decide (e.text = d.text)) = some d))) := by
  induction l with
  | nil => rfl
  | cons d rest ih =>
      have hd := h d (List.mem_cons_self d rest)
      have hrest : ∀ x ∈ rest, x ∈ full := fun x hx => h x (List.mem_cons_of_mem d hx)
      rw [pyFilterAux, pyKeepFlag_eq full d hd, ih hrest]
      by_cases hP : full.find? (fun e => decide (e.text = d.text)) = some d <;>
        simp [hP, List.filter_cons]

lemma dictUpsert_mem_eq (f : String → VttEntry) (m : List (String × VttEntry))
    (k : String) (v : VttEntry) (hm : ∀ p ∈ m, p.2 = f p.1) (hv : v = f k)
    (hk : k ∈ m.map Prod.fst) : dictUpsert k v m = m := by
  induction m with
  | nil => simp at hk
  | cons p rest ih =>
      obtain ⟨k', v'⟩ := p
      by_cases he : k' = k
      · subst he
        have : v' = f k' := hm (k', v') (List.mem_cons_self _ _)
        simp [dictUpsert, hv, this]
      · have hk' : k ∈ rest.map Prod.fst := by
          rw [List.map_cons] at hk
          rcases List.mem_cons.mp hk with h' | h'
          · exact absurd h'.symm he
          · exact h'
        have hmrest : ∀ p ∈ rest, p.2 = f p.1 := fun p hp => hm p (List.mem_cons_of_mem _ hp)
        simp [dictUpsert, he, ih hmrest hk']

lemma dictUpsert_not_mem (m : List (String × VttEntry)) (k : String) (v : VttEntry)
    (hk : k ∉ m.map Prod.fst) : dictUpsert k v m = m ++ [(k, v)] := by
  induction m with
  | nil => rfl
  | cons p rest ih =>
      obtain ⟨k', v'⟩ := p
      have hne : k' ≠ k := by
        intro hh
        exact hk (by simp [hh])
      have hk' : k ∉ rest.map Prod.fst := fun hh => hk (by simp [hh])
      simp [dictUpsert, hne, ih hk']

/-- Values of the text-keyed dict built over a list whose entries are all
canonical for their text: the dict keeps one entry per text, at the
position of the text's first occurrence. -/
lemma foldl_dictUpsert_values (f : String → VttEntry) :
    ∀ (l : List VttEntry) (m : List (String × VttEntry)) (seen : List String),
      (∀ p ∈ m, p.2 = f p.1) → (∀ d ∈ l, d = f d.text) →
      (∀ t, t ∈ m.map Prod.fst ↔ t ∈ seen) →
      (l.foldl (fun m d => dictUpsert d.text d m) m).map Prod.snd =
        m.map Prod.snd ++ keepFirstByText seen l := by
  intro l
  induction l with
  | nil => intro m seen _ _ _; simp [keepFirstByText]
  | cons d rest ih =>
      intro m seen hm hl hiff
      have hd : d = f d.text := hl d (List.mem_cons_self d rest)
      have hlrest : ∀ x ∈ rest, x = f x.text := fun x hx => hl x (List.mem_cons_of_mem d hx)
      by_cases hseen : d.text ∈ seen
      · have hkey : d.text ∈ m.map Prod.fst := (hiff d.text).mpr hseen
        rw [List.foldl_cons, dictUpsert_mem_eq f m d.text d hm hd hkey]
        rw [ih m seen hm hlrest hiff]
        simp [keepFirstByText, hseen]
      · have hkey : d.text ∉ m.map Prod.fst := fun hh => hseen ((hiff d.text).mp hh)
        rw [List.foldl_cons, dictUpsert_not_mem m d.text d hkey]
        have hm' : ∀ p ∈ m ++ [(d.text, d)], p.2 = f p.1 := by
          intro p hp
          rcases List.mem_append.mp hp with h' | h'
          · exact hm p h'
          · rcases List.mem_singleton.mp h' with rfl
            exact hd
        have hiff' : ∀ t, t ∈ (m ++ [(d.text, d)]).map Prod.fst ↔ t ∈ d.text :: seen := by
          intro t
          have ht := hiff t
          simp only [List.map_append, List.mem_append, List.map_cons, List.map_nil,
            List.mem_singleton, List.mem_cons, List.not_mem_nil, or_false] at *
          tauto
        rw [ih (m ++ [(d.text, d)]) (d.text :: seen) hm' hlrest hiff']
        simp [keepFirstByText, hseen]

/-- Restricting a list to the first entry of each text class does not
change its dedup-by-first-text result. -/
lemma keepFirst_filter_firstOcc (full : List VttEntry) :
    ∀ (suf pre : List VttEntry) (seen : List String),
      full = pre ++ suf →
      (∀ t, t ∈ seen ↔ t ∈ pre.map VttEntry.text) →
      keepFirstByText seen (suf.filter (fun d =>
        decide (full.find? (fun e => decide (e.text = d.text)) = some d))) =
      keepFirstByText seen suf := by
  intro suf
  induction suf with
  | nil => intro pre seen _ _; rfl
  | cons d rest ih =>
      intro pre seen hfull hiff
      have hfull' : full = (pre ++ [d]) ++ rest := by simp [hfull]
      by_cases hseen : d.text ∈ seen
      · have hiff2 : ∀ t, t ∈ seen ↔ t ∈ (pre ++ [d]).map VttEntry.text := by
          intro t
          have ht := hiff t
          by_cases htd : t = d.text
          · subst htd
            simp [hseen]
          · simp only [List.map_append, List.mem_append, List.map_cons, List.map_nil,
              List.mem_singleton, List.not_mem_nil, or_false] at *
            tauto
        have hres := ih (pre ++ [d]) seen hfull' hiff2
        rw [List.filter_cons]
        by_cases hP : (decide (full.find? (fun e => decide (e.text = d.text)) = some d)) = true
        · rw [if_pos hP, keepFirstByText, if_pos hseen, hres, keepFirstByText, if_pos hseen]
        · rw [if_neg hP, hres, keepFirstByText, if_pos hseen]
      · have hpre : d.text ∉ pre.map VttEntry.text := fun hh => hseen ((hiff d.text).mpr hh)
        have hfindpre : pre.find? (fun e => decide (e.text = d.text)) = none := by
          rw [List.find?_eq_none]
          intro e he
          simp only [decide_eq_true_eq]
          intro heq
          exact hpre (by
            rw [← heq]
            exact List.mem_map_of_mem VttEntry.text he)
        have hP : full.find? (fun e => decide (e.text = d.text)) = some d := by
          rw [hfull, List.find?_append, hfindpre, Option.none_or]
          exact List.find?_cons_of_pos _ (by simp)
        have hiff3 : ∀ t, t ∈ (d.text :: seen) ↔ t ∈ (pre ++ [d]).map VttEntry.text := by
          intro t
          have ht := hiff t
          simp only [List.mem_cons, List.map_append, List.mem_append, List.map_cons,
            List.map_nil, List.mem_singleton, List.not_mem_nil, or_false] at *
          tauto
        have hres := ih (pre ++ [d]) (d.text :: seen) hfull' hiff3
        rw [List.filter_cons, if_pos (by simpa using hP), keepFirstByText, if_neg hseen,
          hres, keepFirstByText, if_neg hseen]

/-- The Python dedup line computes exactly "keep the first occurrence of
each cue text, in its original position, dropping every later repeat";
in particular its `entries.index` call never raises. -/
lemma pyDedup_eq_keepFirst (l : List VttEntry) :
    pyDedup l = some (keepFirstByText [] l) := by
  have hfil := pyFilterAux_eq l l (fun d hd => hd)
  rw [pyDedup, hfil, Option.map_some']
  have hdict := foldl_dictUpsert_values
    (fun t => (l.find? (fun e => decide (e.text = t))).getD ⟨⟨0, 0⟩, t⟩)
    (l.filter (fun d => decide (l.find? (fun e => decide (e.text = d.text)) = some d)))
    [] [] (by simp) ?_ (by simp)
  · rw [pyDictValues, hdict, List.map_nil, List.nil_append,
      keepFirst_filter_firstOcc l l [] [] rfl (by simp)]
  · intro d hd
    have hP := (List.mem_filter.mp hd).2
    simp only [decide_eq_true_eq] at hP
    show d = (l.find? (fun e => decide (e.text = d.text))).getD ⟨⟨0, 0⟩, d.text⟩
    rw [hP]
    rfl

/-- C5: for every caption input, the parser's output is the scanned cue
sequence with every cue whose text already occurred on an earlier cue
(anywhere earlier, not merely the immediately preceding one) dropped, the
first occurrence of each text being kept in its original position — that
is exactly `keepFirstByText []`. -/
theorem parse_dedup_keeps_first_occurrence (s : String) :
    parse_vtt_transcript s = some (keepFirstByText [] (rawEntries s)) :=
  pyDedup_eq_keepFirst (rawEntries s)

/-- A line that matches no timing pattern leaves an idle scanner state
(no pending cue) unchanged. -/
lemma stepLine_inert (st : ScanSt) (l : List Char)
    (hm : timingMatch (stripChars l) = none) (hs : st.curStart = none) :
    stepLine st l = st := by
  unfold stepLine
  by_cases hskip : stripChars l = [] ∨ pyIsDigit (stripChars l) = true ∨
      hasHtmlTag (stripChars l) = true
  · simp [hskip]
  · simp only [hskip, if_false]
    rw [hm]
    rw [hs]

lemma scanLines_inert (lines : List (List Char)) (st : ScanSt)
    (h : ∀ l ∈ lines, timingMatch (stripChars l) = none) (hs : st.curStart = none) :
    scanLines st lines = st := by
  induction lines with
  | nil => rfl
  | cons l rest ih =>
      have h1 : stepLine st l = st :=
        stepLine_inert st l (h l (List.mem_cons_self l rest)) hs
      have h2 : ∀ x ∈ rest, timingMatch (stripChars x) = none :=
        fun x hx => h x (List.mem_cons_of_mem l hx)
      calc scanLines st (l :: rest) = scanLines (stepLine st l) rest := rfl
      _ = scanLines st rest := by rw [h1]
      _ = st := ih h2

/-- The input contains no line matching the cue-timing pattern. -/
def noTimingLine (s : String) : Prop :=
  ∀ l ∈ vttLines s, timingMatch (stripChars l) = none

instance (s : String) : Decidable (noTimingLine s) := by
  unfold noTimingLine
  infer_instance

lemma bodyLines_subset (s : String) : ∀ l ∈ bodyLines s, l ∈ vttLines s := by
  intro l hl
  have hb : bodyLines s =
      match (vttLines s).findIdx? (fun l => decide (stripChars l = [])) with
      | some i => (vttLines s).drop (i + 1)
      | none => vttLines s := rfl
  rw [hb] at hl
  rcases hfind : (vttLines s).findIdx? (fun l => decide (stripChars l = [])) with _ | i
  · rw [hfind] at hl
    exact hl
  · rw [hfind] at hl
    exact List.drop_subset _ _ hl

/-- C7: the caption parser is total — on every input string it returns a
result (no exception escapes; in particular the `entries.index` call of
the dedup line never raises) — and an input containing no timing line
yields the empty cue sequence, not an error. -/
theorem parse_total_and_empty_without_timing (s : String) :
    (parse_vtt_transcript s).isSome = true ∧
      (noTimingLine s → parse_vtt_transcript s = some []) := by
  constructor
  · show (pyDedup (rawEntries s)).isSome = true
    rw [pyDedup_eq_keepFirst (rawEntries s)]
    rfl
  · intro h
    have hb : ∀ l ∈ bodyLines s, timingMatch (stripChars l) = none :=
      fun l hl => h l (bodyLines_subset s l hl)
    have hraw : rawEntries s = [] := by
      unfold rawEntries
      rw [scanLines_inert (bodyLines s) initSt hb rfl]
      rfl
    rw [parse_vtt_transcript, hraw]
    rfl

/-- Witness for C7 at a concrete timing-free input. -/
theorem parse_total_and_empty_without_timing_witness :
    (parse_vtt_transcript "hello\nworld").isSome = true ∧
      parse_vtt_transcript "hello\nworld" = some [] :=
  ⟨(parse_total_and_empty_without_timing "hello\nworld").1,
    (parse_total_and_empty_without_timing "hello\nworld").2 (by decide)⟩

/-- C6 counterexample: on the specification's example input the parser
does not return the claimed cues `[(0.0, "Hello world"), (4.0, "Goodbye")]`. -/
theorem parse_example_refutes_spec :
    (parse_vtt_transcript "WEBVTT\n\n00:00:00.000 --> 00:00:02.000\nHello world\n\n00:00:02.000 --> 00:00:04.000\nHello world\n\n00:00:04.000 --> 00:00:06.000\nGoodbye\n").map
        (fun l => l.map (fun e => (e.start.toQ, e.text))) ≠
      some [((0 : ℚ), "Hello world"), ((4 : ℚ), "Goodbye")] := by
  have h : parse_vtt_transcript "WEBVTT\n\n00:00:00.000 --> 00:00:02.000\nHello world\n\n00:00:02.000 --> 00:00:04.000\nHello world\n\n00:00:04.000 --> 00:00:06.000\nGoodbye\n" =
      some [⟨⟨0, 3⟩, "Hello world"⟩, ⟨⟨2000, 3⟩, "Goodbye"⟩] := by decide
  rw [h]
  simp only [Option.map_some', List.map_cons, List.map_nil, ne_eq, Option.some_inj]
  intro hc
  have h2 := (List.cons.injEq _ _ _ _).mp hc
  have h3 := (List.cons.injEq _ _ _ _).mp h2.2
  have h4 : (Sec.toQ ⟨2000, 3⟩) = 4 := (Prod.mk.injEq _ _ _ _).mp h3.1 |>.1
  rw [Sec.toQ] at h4
  norm_num at h4

/-- C6 amended: on the specification's example input the parser returns
`[(0.0, "Hello world"), (2.0, "Goodbye")]` — the duplicate "Hello world"
cue is dropped, but the surviving "Goodbye" cue carries start time 2.0
(the pending start of the duplicate's timing line, which the later
`00:00:04.000` timing line does not overwrite because
`if not current_start:` is false for the truthy value 2.0). -/
theorem parse_example_actual :
    (parse_vtt_transcript "WEBVTT\n\n00:00:00.000 --> 00:00:02.000\nHello world\n\n00:00:02.000 --> 00:00:04.000\nHello world\n\n00:00:04.000 --> 00:00:06.000\nGoodbye\n").map
        (fun l => l.map (fun e => (e.start.toQ, e.text))) =
      some [((0 : ℚ), "Hello world"), ((2 : ℚ), "Goodbye")] := by
  have h : parse_vtt_transcript "WEBVTT\n\n00:00:00.000 --> 00:00:02.000\nHello world\n\n00:00:02.000 --> 00:00:04.000\nHello world\n\n00:00:04.000 --> 00:00:06.000\nGoodbye\n" =
      some [⟨⟨0, 3⟩, "Hello world"⟩, ⟨⟨2000, 3⟩, "Goodbye"⟩] := by decide
  rw [h]
  simp only [Option.map_some', List.map_cons, List.map_nil, Option.some_inj]
  rw [Sec.toQ, Sec.toQ]
  norm_num

/-! ## KnowledgeStore: the SQLite layer of `db.py`

State model: the `videos` and `video_details` tables are lists of rows in
insertion order, the AUTOINCREMENT counter for `chunk_id` is explicit, and
the two FTS5 mirrors (kept in sync by the `AFTER INSERT` / `AFTER DELETE`
triggers created in `init_db`, which fire inside the enclosing
transaction) are further lists.  Numbers are exact rationals; embedding
blobs are modelled by the float sequence they decode to (the codec round
trip is proved exact above), with `none` for SQL `NULL`.  The
`processed_at` wall-clock column is outside the model; no claim concerns
it.

Python dictionary lookups such as `metadata.get('url', '')` can still
produce `None` when the key is present with value `None`; every such
field is therefore `Option`-typed in the input records, with `none`
modelling a `None` lookup result, and the NOT NULL columns of the schema
reject `none` at insert time (sqlite3 `IntegrityError`). -/

/-- The `video_data['metadata']` dictionary, each field holding the value
of the corresponding `metadata.get(...)` lookup in `store_video`. -/
structure VideoMetadata where
  video_id : Option String
  url : Option String
  title : Option String
  author : Option String
  duration : Option Int
  view_count : Option Int
  upload_date : Option String
  description : Option String
deriving DecidableEq, Repr

/-- The `video_data` argument of `store_video`. -/
structure VideoData where
  metadata : Option VideoMetadata
  transcript : Option String
deriving DecidableEq, Repr

/-- The `summary` argument of `store_video`. -/
structure SummaryIn where
  summary : Option String
  tldr : Option String
  tags : Option (List String)
deriving DecidableEq, Repr

/-- One element of the `chunks` argument of `store_video`: the values of
the lookups performed by the chunk-insertion loop.  `embedding = none`
models a missing (or `None`) `'embedding'` key; `some []` models an
explicitly empty vector. -/
structure ChunkIn where
  text : Option String
  embedding : Option (List ℚ)
  timestamp : Option ℚ
  end_timestamp : Option ℚ
  entries : List (ℚ × String)
deriving DecidableEq, Repr

/-- A row of the `videos` table. -/
structure VideoRow where
  video_id : String
  url : String
  title : String
  author : String
  duration : Int
  view_count : Option Int
  upload_date : String
  video_description : Option String
  summary : String
  tldr : Option String
  tags : Option (List String)
  full_transcript : Option String
deriving DecidableEq, Repr

/-- A row of the `video_details` table. -/
structure ChunkRow where
  chunk_id : Nat
  video_id : String
  chunk_text : String
  embedding : Option (List ℚ)
  timestamp : ℚ
  end_timestamp : ℚ
  entries : Option (List (ℚ × String))
deriving DecidableEq, Repr

/-- A row of the `videos_fts` FTS5 mirror. -/
structure VideoFtsRow where
  video_id : String
  title : String
  summary : String
  tldr : Option String
  tags : Option (List String)
  full_transcript : Option String
deriving DecidableEq, Repr

/-- The persisted database state. -/
structure DB where
  videos : List VideoRow
  video_details : List ChunkRow
  next_chunk_id : Nat
  videos_fts : List VideoFtsRow
  video_details_fts : List (Nat × String)
deriving DecidableEq, Repr

/-- The errors sqlite3 / `store_video` can raise. -/
inductive DbError where
  | attributeError
  | missingVideoId
  | notNullViolation
  | integrityError
deriving DecidableEq, Repr

instance {ε α : Type} [DecidableEq ε] [DecidableEq α] : DecidableEq (Except ε α) :=
  fun x y =>
    match x, y with
    | .error e, .error f => decidable_of_iff (e = f) (by simp)
    | .error _, .ok _ => .isFalse (by simp)
    | .ok _, .error _ => .isFalse (by simp)
    | .ok a, .ok b => decidable_of_iff (a = b) (by simp)

/-- Binding a Python value into a NOT NULL column: `None` violates the
constraint. -/
def require {α : Type} : Option α → Except DbError α
  | some a => .ok a
  | none => .error .notNullViolation

/-- The FTS row inserted by the `videos_ai` trigger. -/
def videoToFts (r : VideoRow) : VideoFtsRow :=
  ⟨r.video_id, r.title, r.summary, r.tldr, r.tags, r.full_transcript⟩

/-- `INSERT INTO videos ...` and its `videos_ai` trigger; fails with an
`IntegrityError` on a primary-key collision. -/
def insertVideoRow (db : DB) (r : VideoRow) : Except DbError DB :=
  if db.videos.any (fun v => decide (v.video_id = r.video_id)) then .error .integrityError
  else .ok { db with
    videos := db.videos ++ [r],
    videos_fts := db.videos_fts ++ [videoToFts r] }

/-- `DELETE FROM videos WHERE video_id = ?` and its `videos_ad` trigger. -/
def deleteVideoRows (db : DB) (vid : String) : DB :=
  { db with
    videos := db.videos.filter (fun v => decide (v.video_id ≠ vid)),
    videos_fts := db.videos_fts.filter (fun v => decide (v.video_id ≠ vid)) }

/-- `DELETE FROM video_details WHERE video_id = ?` and its
`video_details_ad` trigger (which removes the FTS row of every deleted
chunk id). -/
def deleteChunkRows (db : DB) (vid : String) : DB :=
  { db with
    video_details := db.video_details.filter (fun c => decide (c.video_id ≠ vid)),
    video_details_fts := db.video_details_fts.filter (fun p =>
      decide (p.1 ∉ (db.video_details.filter
        (fun c => decide (c.video_id = vid))).map ChunkRow.chunk_id)) }

/-- `INSERT INTO videos_fts(videos_fts) VALUES('rebuild')`: recompute the
mirror from the content table. -/
def rebuildVideosFts (db : DB) : DB :=
  { db with videos_fts := db.videos.map videoToFts }

/-- The embedding blob stored for one chunk:
`encode(chunk['embedding'])` when the `'embedding'` key is present and
truthy, SQL `NULL` otherwise (so an absent key, a `None` value and an
empty vector all store `NULL`). -/
def storedEmbedding (c : ChunkIn) : Option (List ℚ) :=
  match c.embedding with
  | some l => if l = [] then none else some l
  | none => none

/-- One iteration of the chunk-insertion loop of `store_video`: bind the
chunk's values and run `INSERT INTO video_details ...` with its
`video_details_ai` trigger. -/
def insertChunkStmt (db : DB) (vid : String) (c : ChunkIn) : Except DbError DB := do
  let text ← require c.text
  let ts ← require c.timestamp
  let ets ← require c.end_timestamp
  let row : ChunkRow :=
    ⟨db.next_chunk_id, vid, text, storedEmbedding c, ts, ets,
      if c.entries = [] then none else some c.entries⟩
  .ok { db with
    video_details := db.video_details ++ [row],
    next_chunk_id := db.next_chunk_id + 1,
    video_details_fts := db.video_details_fts ++ [(row.chunk_id, row.chunk_text)] }

/-- The chunk-insertion loop of `store_video`. -/
def insertChunksStmt (vid : String) : DB → List ChunkIn → Except DbError DB
  | db, [] => .ok db
  | db, c :: rest => do insertChunksStmt vid (← insertChunkStmt db vid c) rest

/-- The row built from `video_values` in `store_video` (defaults applied
by the `metadata.get(key, default)` lookups are part of the input model;
`tags_json` is `None` when `tags` is `None` or empty). -/
def mkVideoRow (vid : String) (md : VideoMetadata) (vd : VideoData) (sm : SummaryIn)
    (url title author : String) (dur : Int) (upd summ : String) : VideoRow :=
  ⟨vid, url, title, author, dur, md.view_count, upd, md.description, summ, sm.tldr,
    (match sm.tags with
     | some ts => if ts = [] then none else some ts
     | none => none),
    vd.transcript⟩

/-- The statement sequence of the `store_video` transaction, run on a
working copy of the state. -/
def storeVideoBody (db : DB) (vid : String) (md : VideoMetadata) (vd : VideoData)
    (sm : SummaryIn) (chunks : List ChunkIn) : Except DbError DB := do
  let url ← require md.url
  let title ← require md.title
  let author ← require md.author
  let dur ← require md.duration
  let upd ← require md.upload_date
  let summ ← require sm.summary
  let row := mkVideoRow vid md vd sm url title author dur upd summ
  let existing := db.videos.any (fun v => decide (v.video_id = vid))
  let db1 ←
    if existing then do
      let dbA := deleteChunkRows db vid
      let dbB := deleteVideoRows dbA vid
      let dbC ← insertVideoRow dbB row
      pure (rebuildVideosFts dbC)
    else
      insertVideoRow db row
  insertChunksStmt vid db1 chunks

/-- `store_video` from `db.py`.  The `with sqlite3.connect(...)` context
manager commits the transaction on success and rolls it back on any
exception, so the caller observes the worked state only on success and
the unchanged prior state on failure.  The `ValueError` for a missing
`video_id` (and the attribute error when `metadata` is `None`) are raised
before the connection is even opened. -/
def store_video (db : DB) (video_data : VideoData) (summary : SummaryIn)
    (chunks : List ChunkIn) : Except DbError Unit × DB :=
  match video_data.metadata with
  | none => (.error .attributeError, db)
  | some md =>
      match md.video_id with
      | none => (.error .missingVideoId, db)
      | some vid =>
          if vid = "" then (.error .missingVideoId, db)
          else
            match storeVideoBody db vid md video_data summary chunks with
            | .ok db' => (.ok (), db')
            | .error e => (.error e, db)

/-- Stable ascending insertion by key: a later element is placed after
every earlier element whose key is not larger (models `ORDER BY`). -/
def insertAscBy {α : Type} (key : α → ℚ) (x : α) : List α → List α
  | [] => [x]
  | b :: t => if key x < key b then x :: b :: t else b :: insertAscBy key x t

/-- Stable ascending sort by key. -/
def sqlSortAscBy {α : Type} (key : α → ℚ) (l : List α) : List α :=
  l.foldl (fun acc x => insertAscBy key x acc) []

/-- Stable descending insertion by key: a later element is placed after
every earlier element whose key is not smaller.  This models Python's
stable `list.sort(key=..., reverse=True)`. -/
def insertDescBy {α : Type} (key : α → ℚ) (x : α) : List α → List α
  | [] => [x]
  | b :: t => if key b < key x then x :: b :: t else b :: insertDescBy key x t

/-- Stable descending sort by key (`results.sort(key=..., reverse=True)`). -/
def pySortDescBy {α : Type} (key : α → ℚ) (l : List α) : List α :=
  l.foldl (fun acc x => insertDescBy key x acc) []

/-- A chunk row as returned by `get_video` (the `SELECT` omits the
embedding column). -/
structure ChunkView where
  chunk_id : Nat
  chunk_text : String
  timestamp : ℚ
  end_timestamp : ℚ
  entries : Option (List (ℚ × String))
deriving DecidableEq, Repr

/-- Projection of a chunk row to the columns selected by `get_video`. -/
def chunkView (c : ChunkRow) : ChunkView :=
  ⟨c.chunk_id, c.chunk_text, c.timestamp, c.end_timestamp, c.entries⟩

/-- `get_video` from `db.py`: the video row (or `None`), together with its
chunks ordered by `timestamp`. -/
def get_video (vid : String) (db : DB) : Option (VideoRow × List ChunkView) :=
  match db.videos.find? (fun r => decide (r.video_id = vid)) with
  | none => none
  | some r =>
      some (r, (sqlSortAscBy ChunkRow.timestamp
        (db.video_details.filter (fun c => decide (c.video_id = vid)))).map chunkView)

/-- `delete_video` from `db.py`: delete the chunks, then the video row;
`cursor.rowcount` after the second statement counts the deleted video
rows, and the function returns whether it was positive. -/
def delete_video (db : DB) (vid : String) : Bool × DB :=
  let db1 := deleteChunkRows db vid
  let affected := (db1.videos.filter (fun v => decide (v.video_id = vid))).length
  (decide (0 < affected), deleteVideoRows db1 vid)

/-- Multiplication of exact rationals through `mkRat` (kernel-evaluable;
proved below to agree with `ℚ` multiplication). -/
def ratMul (a b : ℚ) : ℚ := mkRat (a.num * b.num) (a.den * b.den)

/-- Addition of exact rationals through `mkRat` (kernel-evaluable; proved
below to agree with `ℚ` addition). -/
def ratAdd (a b : ℚ) : ℚ := mkRat (a.num * b.den + b.num * a.den) (a.den * b.den)

lemma ratMul_eq (a b : ℚ) : ratMul a b = a * b := by
  rw [ratMul, Rat.mkRat_eq_div]
  conv_rhs => rw [← Rat.num_div_den a, ← Rat.num_div_den b]
  rw [div_mul_div_comm]
  push_cast
  ring

lemma ratAdd_eq (a b : ℚ) : ratAdd a b = a + b := by
  have ha : ((a.den : ℚ)) ≠ 0 := by
    exact_mod_cast a.den_nz
  have hb : ((b.den : ℚ)) ≠ 0 := by
    exact_mod_cast b.den_nz
  rw [ratAdd, Rat.mkRat_eq_div]
  conv_rhs => rw [← Rat.num_div_den a, ← Rat.num_div_den b]
  rw [div_add_div _ _ ha hb]
  push_cast
  ring_nf

/-- `sum(a * b for a, b in zip(embedding, chunk_vector))`: the dot product
of the query vector and a chunk vector (`zip` truncates to the shorter). -/
def dotQ (q v : List ℚ) : ℚ := ((q.zip v).map (fun p => ratMul p.1 p.2)).foldl ratAdd 0

lemma foldl_ratAdd_eq (l : List ℚ) : ∀ acc, l.foldl ratAdd acc = l.foldl (· + ·) acc := by
  induction l with
  | nil => intro acc; rfl
  | cons a t ih =>
      intro acc
      rw [List.foldl_cons, List.foldl_cons, ratAdd_eq, ih]

/-- The dot product agrees with the textbook `ℚ` sum of products. -/
lemma dotQ_eq_sum (q v : List ℚ) :
    dotQ q v = ((q.zip v).map (fun p => p.1 * p.2)).foldl (· + ·) 0 := by
  rw [dotQ]
  simp only [ratMul_eq]
  exact foldl_ratAdd_eq _ 0

/-- A scored result row of `find_similar_chunks`. -/
structure SimChunk where
  chunk_id : Nat
  video_id : String
  title : String
  author : String
  chunk_text : String
  timestamp : ℚ
  end_timestamp : ℚ
  similarity : ℚ
deriving DecidableEq, Repr

/-- The pre-sort result list of `find_similar_chunks`: every chunk with a
non-NULL embedding, joined with its parent video, kept when its decoded
blob is truthy (nonempty), scored by the dot product with the query. -/
def scoredCandidates (emb : List ℚ) (db : DB) : List SimChunk :=
  (db.video_details.filter (fun c => c.embedding.isSome)).filterMap (fun c =>
    match db.videos.find? (fun v => decide (v.video_id = c.video_id)), c.embedding with
    | some v, some vec =>
        if vec = [] then none
        else some ⟨c.chunk_id, c.video_id, v.title, v.author, c.chunk_text,
          c.timestamp, c.end_timestamp, dotQ emb vec⟩
    | _, _ => none)

/-- `find_similar_chunks` from `db.py` (the commented-out vector-search
scaffold, which the specification formalises as the semantic search
mode): linear scan, stable descending sort by similarity, truncation. -/
def find_similar_chunks (emb : List ℚ) (limit : Nat) (db : DB) : List SimChunk :=
  (pySortDescBy SimChunk.similarity (scoredCandidates emb db)).take limit

lemma insertDescBy_perm {α : Type} (key : α → ℚ) (x : α) (l : List α) :
    List.Perm (insertDescBy key x l) (x :: l) := by
  induction l with
  | nil => exact List.Perm.refl _
  | cons b t ih =>
      rw [insertDescBy]
      by_cases h : key b < key x
      · rw [if_pos h]
      · rw [if_neg h]
        exact (ih.cons b).trans (List.Perm.swap x b t)

lemma foldl_insertDescBy_perm {α : Type} (key : α → ℚ) :
    ∀ (l acc : List α),
      List.Perm (l.foldl (fun acc x => insertDescBy key x acc) acc) (acc ++ l) := by
  intro l
  induction l with
  | nil => intro acc; simp
  | cons x t ih =>
      intro acc
      rw [List.foldl_cons]
      exact ((ih _).trans (((insertDescBy_perm key x acc).append_right t).trans
        List.perm_middle.symm))

lemma pySortDescBy_perm {α : Type} (key : α → ℚ) (l : List α) :
    List.Perm (pySortDescBy key l) l := by
  simpa using foldl_insertDescBy_perm key l []

lemma insertDescBy_sorted {α : Type} (key : α → ℚ) (x : α) (acc : List α)
    (hs : acc.Pairwise (fun a b => key b ≤ key a)) :
    (insertDescBy key x acc).Pairwise (fun a b => key b ≤ key a) := by
  induction acc with
  | nil => simp [insertDescBy]
  | cons b t ih =>
      rcases List.pairwise_cons.mp hs with ⟨hb, ht⟩
      rw [insertDescBy]
      by_cases h : key b < key x
      · rw [if_pos h]
        refine List.pairwise_cons.mpr ⟨?_, hs⟩
        intro y hy
        rcases List.mem_cons.mp hy with rfl | hy'
        · exact le_of_lt h
        · exact le_trans (hb y hy') (le_of_lt h)
      · rw [if_neg h]
        refine List.pairwise_cons.mpr ⟨?_, ih ht⟩
        intro y hy
        have hy2 : y ∈ x :: t := (insertDescBy_perm key x t).subset hy
        rcases List.mem_cons.mp hy2 with rfl | hy'
        · exact not_lt.mp h
        · exact hb y hy'

lemma foldl_insertDescBy_sorted {α : Type} (key : α → ℚ) :
    ∀ (l acc : List α), acc.Pairwise (fun a b => key b ≤ key a) →
      (l.foldl (fun acc x => insertDescBy key x acc) acc).Pairwise
        (fun a b => key b ≤ key a) := by
  intro l
  induction l with
  | nil => intro acc hs; exact hs
  | cons x t ih =>
      intro acc hs
      rw [List.foldl_cons]
      exact ih _ (insertDescBy_sorted key x acc hs)

lemma pySortDescBy_sorted {α : Type} (key : α → ℚ) (l : List α) :
    (pySortDescBy key l).Pairwise (fun a b => key b ≤ key a) :=
  foldl_insertDescBy_sorted key l [] (by simp)

/-- Stability of the insertion step: within one key class the inserted
element lands after every element already present. -/
lemma insertDescBy_filter {α : Type} (key : α → ℚ) (x : α) (acc : List α) (v : ℚ)
    (hs : acc.Pairwise (fun a b => key b ≤ key a)) :
    (insertDescBy key x acc).filter (fun a => decide (key a = v)) =
      if key x = v then acc.filter (fun a => decide (key a = v)) ++ [x]
      else acc.filter (fun a => decide (key a = v)) := by
  induction acc with
  | nil => by_cases h : key x = v <;> simp [insertDescBy, h]
  | cons b t ih =>
      rcases List.pairwise_cons.mp hs with ⟨hb, ht⟩
      rw [insertDescBy]
      by_cases hlt : key b < key x
      · rw [if_pos hlt]
        by_cases hx : key x = v
        · rw [if_pos hx]
          have hnil : (b :: t).filter (fun a => decide (key a = v)) = [] := by
            rw [List.filter_eq_nil_iff]
            intro a ha
            have hale : key a ≤ key b := by
              rcases List.mem_cons.mp ha with rfl | ha'
              · exact le_refl _
              · exact hb a ha'
            simp only [decide_eq_true_eq]
            intro hav
            rw [hav, ← hx] at hale
            exact absurd hale (not_le.mpr hlt)
          rw [List.filter_cons, if_pos (by simpa using hx), hnil]
          simp
        · rw [if_neg hx, List.filter_cons, if_neg (by simpa using hx)]
      · rw [if_neg hlt, List.filter_cons, ih ht]
        by_cases hx : key x = v <;> by_cases hbv : key b = v <;>
          simp [hx, hbv, List.filter_cons]

lemma foldl_insertDescBy_filter {α : Type} (key : α → ℚ) (v : ℚ) :
    ∀ (l acc : List α), acc.Pairwise (fun a b => key b ≤ key a) →
      (l.foldl (fun acc x => insertDescBy key x acc) acc).filter
          (fun a => decide (key a = v)) =
        acc.filter (fun a => decide (key a = v)) ++ l.filter (fun a => decide (key a = v)) := by
  intro l
  induction l with
  | nil => intro acc _; simp
  | cons x t ih =>
      intro acc hs
      rw [List.foldl_cons, ih _ (insertDescBy_sorted key x acc hs),
        insertDescBy_filter key x acc v hs, List.filter_cons]
      by_cases hx : key x = v <;> simp [hx]

/-- Stability of the whole sort: each key class of the output is exactly
the corresponding subsequence of the input, in input order. -/
lemma pySortDescBy_filter {α : Type} (key : α → ℚ) (v : ℚ) (l : List α) :
    (pySortDescBy key l).filter (fun a => decide (key a = v)) =
      l.filter (fun a => decide (key a = v)) := by
  simpa using foldl_insertDescBy_filter key v l [] (by simp)

/-- In a descending-sorted list, a truncation containing some element `r`
contains every element whose key is strictly larger than `r`'s. -/
lemma countP_take_sorted {α : Type} (key : α → ℚ) (v : ℚ) :
    ∀ (L : List α), L.Pairwise (fun a b => key b ≤ key a) →
      ∀ (n : Nat) (r : α), r ∈ L.take n → key r < v →
        (L.take n).countP (fun a => decide (key a = v)) =
          L.countP (fun a => decide (key a = v)) := by
  intro L
  induction L with
  | nil => intro _ n r hr _; simp at hr
  | cons x t ih =>
      intro hs n r hr hrv
      rcases List.pairwise_cons.mp hs with ⟨hx, ht⟩
      cases n with
      | zero => simp at hr
      | succ m =>
          rw [List.take_succ_cons] at hr ⊢
          rcases List.mem_cons.mp hr with rfl | hr'
          · have h0 : t.countP (fun a => decide (key a = v)) = 0 := by
              rw [List.countP_eq_zero]
              intro a ha
              simp only [decide_eq_true_eq]
              intro hav
              have := hx a ha
              rw [hav] at this
              exact absurd hrv (not_lt.mpr this)
            have h0' : (t.take m).countP (fun a => decide (key a = v)) = 0 := by
              rw [List.countP_eq_zero]
              intro a ha
              simp only [decide_eq_true_eq]
              intro hav
              have := hx a (List.take_subset m t ha)
              rw [hav] at this
              exact absurd hrv (not_lt.mpr this)
            rw [List.countP_cons, List.countP_cons, h0, h0']
          · rw [List.countP_cons, List.countP_cons, ih ht m r hr' hrv]

/-- C9: `find_similar_chunks` scores every chunk carrying a non-null
(nonempty) embedding by its dot product with the query and returns them
in descending similarity order, truncated to `limit`, with ties broken by
insertion order: the output length is `min limit` of the candidate count,
similarities are pairwise descending, each similarity class of the output
is a prefix (in insertion order) of the corresponding class of the scan,
and every class scoring strictly above any returned row is returned in
full. -/
theorem find_similar_ranks_by_dot_product (emb : List ℚ) (limit : Nat) (db : DB) :
    (find_similar_chunks emb limit db).length = min limit (scoredCandidates emb db).length ∧
    (find_similar_chunks emb limit db).Pairwise (fun a b => b.similarity ≤ a.similarity) ∧
    (∀ v : ℚ, (find_similar_chunks emb limit db).filter (fun r => decide (r.similarity = v)) <+:
      (scoredCandidates emb db).filter (fun r => decide (r.similarity = v))) ∧
    (∀ r ∈ find_similar_chunks emb limit db, ∀ v : ℚ, r.similarity < v →
      (find_similar_chunks emb limit db).countP (fun a => decide (a.similarity = v)) =
        (scoredCandidates emb db).countP (fun a => decide (a.similarity = v))) := by
  have hperm := pySortDescBy_perm SimChunk.similarity (scoredCandidates emb db)
  have hsort := pySortDescBy_sorted SimChunk.similarity (scoredCandidates emb db)
  refine ⟨?_, ?_, ?_, ?_⟩
  · rw [find_similar_chunks, List.length_take, hperm.length_eq]
  · exact List.Pairwise.sublist (List.take_sublist _ _) hsort
  · intro v
    have h1 : (find_similar_chunks emb limit db).filter (fun r => decide (r.similarity = v)) <+:
        (pySortDescBy SimChunk.similarity (scoredCandidates emb db)).filter
          (fun r => decide (r.similarity = v)) :=
      List.IsPrefix.filter _ (List.take_prefix _ _)
    rwa [pySortDescBy_filter] at h1
  · intro r hr v hrv
    have h1 := countP_take_sorted SimChunk.similarity v
      (pySortDescBy SimChunk.similarity (scoredCandidates emb db)) hsort limit r hr hrv
    rw [find_similar_chunks, h1, List.countP_eq_length_filter, pySortDescBy_filter,
      ← List.countP_eq_length_filter]

/-- Witness for C9 on a database of three scored chunks (dot products 5,
3 and 1 against the query) with limit 2: the class scoring 5 is fully
returned because the score-3 row is in the output. -/
theorem find_similar_ranks_by_dot_product_witness :
    (find_similar_chunks [1] 2
        ⟨[⟨"V", "u", "t", "a", 1, none, "d", none, "s", none, none, none⟩],
          [⟨1, "V", "c1", some [3], 0, 1, none⟩, ⟨2, "V", "c2", some [5], 1, 2, none⟩,
            ⟨3, "V", "c3", some [1], 2, 3, none⟩], 4, [], []⟩).countP
        (fun a => decide (a.similarity = 5)) =
      (scoredCandidates [1]
        ⟨[⟨"V", "u", "t", "a", 1, none, "d", none, "s", none, none, none⟩],
          [⟨1, "V", "c1", some [3], 0, 1, none⟩, ⟨2, "V", "c2", some [5], 1, 2, none⟩,
            ⟨3, "V", "c3", some [1], 2, 3, none⟩], 4, [], []⟩).countP
        (fun a => decide (a.similarity = 5)) :=
  (find_similar_ranks_by_dot_product [1] 2
      ⟨[⟨"V", "u", "t", "a", 1, none, "d", none, "s", none, none, none⟩],
        [⟨1, "V", "c1", some [3], 0, 1, none⟩, ⟨2, "V", "c2", some [5], 1, 2, none⟩,
          ⟨3, "V", "c3", some [1], 2, 3, none⟩], 4, [], []⟩).2.2.2
    ⟨1, "V", "t", "a", "c1", 0, 1, dotQ [1] [3]⟩ (by decide) 5 (by decide)

lemma insertChunkStmt_ok_iff (db : DB) (vid : String) (c : ChunkIn) (db1 : DB) :
    insertChunkStmt db vid c = .ok db1 ↔
      ∃ t ts ets, c.text = some t ∧ c.timestamp = some ts ∧ c.end_timestamp = some ets ∧
        db1 = { db with
          video_details := db.video_details ++
            [⟨db.next_chunk_id, vid, t, storedEmbedding c, ts, ets,
              if c.entries = [] then none else some c.entries⟩],
          next_chunk_id := db.next_chunk_id + 1,
          video_details_fts := db.video_details_fts ++ [(db.next_chunk_id, t)] } := by
  cases hx : c.text <;> cases hts : c.timestamp <;> cases hets : c.end_timestamp <;>
    simp [insertChunkStmt, require, hx, hts, hets, Except.bind, Bind.bind, eq_comm]

/-- Characterisation of a successful chunk-insertion loop: it appends one
row per input chunk (in order, with fresh ids), carrying the chunk's
text, stored embedding and timestamps, and touches no video row. -/
lemma insertChunksStmt_ok (vid : String) :
    ∀ (cs : List ChunkIn) (db db2 : DB),
      insertChunksStmt vid db cs = .ok db2 →
      db2.videos = db.videos ∧
      db2.videos_fts = db.videos_fts ∧
      ∃ rows : List ChunkRow,
        db2.video_details = db.video_details ++ rows ∧
        rows.map (fun r => (r.chunk_text, r.embedding, r.timestamp, r.end_timestamp)) =
          cs.map (fun c => (c.text.getD "", storedEmbedding c, c.timestamp.getD 0,
            c.end_timestamp.getD 0)) ∧
        (∀ r ∈ rows, r.video_id = vid ∧ db.next_chunk_id ≤ r.chunk_id) := by
  intro cs
  induction cs with
  | nil =>
      intro db db2 h
      have hdb : db2 = db := by
        simpa [insertChunksStmt, eq_comm] using h
      subst hdb
      exact ⟨rfl, rfl, [], by simp⟩
  | cons c rest ih =>
      intro db db2 h
      rw [insertChunksStmt] at h
      rcases h1 : insertChunkStmt db vid c with e | db1
      · rw [h1] at h
        simp [Except.bind, Bind.bind] at h
      · rw [h1] at h
        simp only [Except.bind, Bind.bind] at h
        rcases (insertChunkStmt_ok_iff db vid c db1).mp h1 with
          ⟨t, ts, ets, hxt, hxts, hxets, hdb1⟩
        rcases ih db1 db2 h with ⟨hv, hvf, rows', hdet, hmap, hall⟩
        refine ⟨?_, ?_, ⟨db.next_chunk_id, vid, t, storedEmbedding c, ts, ets,
          if c.entries = [] then none else some c.entries⟩ :: rows', ?_, ?_, ?_⟩
        · rw [hv, hdb1]
        · rw [hvf, hdb1]
        · rw [hdet, hdb1]
          simp
        · simp only [List.map_cons, hmap, hxt, hxts, hxets]
          rfl
        · intro r hr
          rcases List.mem_cons.mp hr with rfl | hr'
          · exact ⟨rfl, le_refl _⟩
          · rcases hall r hr' with ⟨hrv, hrid⟩
            refine ⟨hrv, ?_⟩
            have hnext : db1.next_chunk_id = db.next_chunk_id + 1 := by rw [hdb1]
            rw [hnext] at hrid
            omega

/-- The stored-video row when every NOT NULL binding succeeded, written
with the corresponding `Option.getD` defaults. -/
def storedVideoRow (vid : String) (md : VideoMetadata) (vd : VideoData)
    (sm : SummaryIn) : VideoRow :=
  mkVideoRow vid md vd sm (md.url.getD "") (md.title.getD "") (md.author.getD "")
    (md.duration.getD 0) (md.upload_date.getD "") (sm.summary.getD "")

lemma bind_ok_iff {α β : Type} (x : Except DbError α) (f : α → Except DbError β) (b : β) :
    (x >>= f = .ok b) ↔ ∃ a, x = .ok a ∧ f a = .ok b := by
  cases x <;> simp [Bind.bind, Except.bind]

lemma require_ok_iff {α : Type} (x : Option α) (a : α) : require x = .ok a ↔ x = some a := by
  cases x <;> simp [require]

lemma pure_ok_iff {α : Type} (a b : α) : (pure a : Except DbError α) = .ok b ↔ a = b := by
  simp [Pure.pure, Except.pure]

lemma insertVideoRow_ok_iff (db : DB) (r : VideoRow) (db1 : DB) :
    insertVideoRow db r = .ok db1 ↔
      (db.videos.any (fun v => decide (v.video_id = r.video_id)) = false ∧
        db1 = { db with
                videos := db.videos ++ [r],
                videos_fts := db.videos_fts ++ [videoToFts r] }) := by
  unfold insertVideoRow
  rcases h : db.videos.any (fun v => decide (v.video_id = r.video_id)) with _ | _
  · rw [if_neg Bool.false_ne_true]
    constructor
    · intro heq
      exact ⟨rfl, ((Except.ok.injEq _ _).mp heq).symm⟩
    · rintro ⟨-, rfl⟩
      rfl
  · rw [if_pos rfl]
    constructor
    · intro heq
      exact Except.noConfusion heq
    · rintro ⟨hf, -⟩
      exact Bool.noConfusion hf

/-- Characterisation of a successful `store_video` transaction body: when
the video already exists its chunks and its row are deleted first, and in
both branches the new video row and the new chunk rows (fresh ids, input
order) are inserted. -/
lemma storeVideoBody_ok_spec (db : DB) (vid : String) (md : VideoMetadata)
    (vd : VideoData) (sm : SummaryIn) (cs : List ChunkIn) (db' : DB)
    (hok : storeVideoBody db vid md vd sm cs = .ok db') :
    ∃ rows : List ChunkRow,
      db'.videos = (if db.videos.any (fun v => decide (v.video_id = vid)) then
          db.videos.filter (fun v => decide (v.video_id ≠ vid)) else db.videos) ++
        [storedVideoRow vid md vd sm] ∧
      db'.video_details = (if db.videos.any (fun v => decide (v.video_id = vid)) then
          db.video_details.filter (fun c => decide (c.video_id ≠ vid)) else
          db.video_details) ++ rows ∧
      rows.map (fun r => (r.chunk_text, r.embedding, r.timestamp, r.end_timestamp)) =
        cs.map (fun c => (c.text.getD "", storedEmbedding c, c.timestamp.getD 0,
          c.end_timestamp.getD 0)) ∧
      (∀ r ∈ rows, r.video_id = vid ∧ db.next_chunk_id ≤ r.chunk_id) := by
  unfold storeVideoBody at hok
  by_cases hexist : db.videos.any (fun v => decide (v.video_id = vid)) = true
  · simp only [hexist, if_true, bind_ok_iff, require_ok_iff, pure_ok_iff] at hok
    obtain ⟨url, hurl, title, htitle, author, hauthor, dur, hdur, upd, hupd, summ, hsum,
      dbC, hins, db1, hreb, hchunks⟩ := hok
    rcases insertChunksStmt_ok vid cs db1 db' hchunks with ⟨hv, _, rows, hdet, hmap, hall⟩
    rcases (insertVideoRow_ok_iff _ _ dbC).mp hins with ⟨_, hdbC⟩
    have hdb1 : db1 = rebuildVideosFts dbC := hreb.symm
    refine ⟨rows, ?_, ?_, hmap, ?_⟩
    · rw [hv, hdb1, hdbC]
      simp [hexist, rebuildVideosFts, deleteVideoRows, deleteChunkRows, storedVideoRow,
        mkVideoRow, hurl, htitle, hauthor, hdur, hupd, hsum]
    · rw [hdet, hdb1, hdbC]
      simp [hexist, rebuildVideosFts, deleteVideoRows, deleteChunkRows]
    · intro r hr
      rcases hall r hr with ⟨h1, h2⟩
      refine ⟨h1, ?_⟩
      have h3 : db1.next_chunk_id = db.next_chunk_id := by rw [hdb1, hdbC]; rfl
      rw [h3] at h2
      exact h2
  · have hexf : db.videos.any (fun v => decide (v.video_id = vid)) = false :=
      Bool.not_eq_true _ |>.mp hexist
    simp only [hexf, Bool.false_eq_true, if_false, bind_ok_iff, require_ok_iff,
      pure_ok_iff] at hok
    obtain ⟨url, hurl, title, htitle, author, hauthor, dur, hdur, upd, hupd, summ, hsum,
      db1, hins, hchunks⟩ := hok
    rcases insertChunksStmt_ok vid cs db1 db' hchunks with ⟨hv, _, rows, hdet, hmap, hall⟩
    rcases (insertVideoRow_ok_iff db _ db1).mp hins with ⟨_, hdb1⟩
    refine ⟨rows, ?_, ?_, hmap, ?_⟩
    · rw [hv, hdb1]
      simp [hexf, storedVideoRow, mkVideoRow, hurl, htitle, hauthor, hdur, hupd, hsum]
    · rw [hdet, hdb1]
      simp [hexf]
    · intro r hr
      rcases hall r hr with ⟨h1, h2⟩
      refine ⟨h1, ?_⟩
      have h3 : db1.next_chunk_id = db.next_chunk_id := by rw [hdb1]
      rw [h3] at h2
      exact h2

lemma store_video_ok_iff (db : DB) (vd : VideoData) (sm : SummaryIn) (cs : List ChunkIn)
    (db' : DB) :
    store_video db vd sm cs = (.ok (), db') ↔
      ∃ md vid, vd.metadata = some md ∧ md.video_id = some vid ∧ vid ≠ "" ∧
        storeVideoBody db vid md vd sm cs = .ok db' := by
  rcases hmd : vd.metadata with _ | md
  · simp [store_video, hmd]
  · rcases hid : md.video_id with _ | vid
    · simp [store_video, hmd, hid]
    · by_cases hv : vid = ""
      · simp [store_video, hmd, hid, hv]
      · rcases hbody : storeVideoBody db vid md vd sm cs with e | dbx <;>
          simp [store_video, hmd, hid, hv, hbody, eq_comm]

lemma store_video_error_state (db : DB) (vd : VideoData) (sm : SummaryIn)
    (cs : List ChunkIn) (e : DbError) (db' : DB)
    (h : store_video db vd sm cs = (.error e, db')) : db' = db := by
  rw [store_video] at h
  rcases hmd : vd.metadata with _ | md
  · simp only [hmd] at h
    have h2 := congrArg Prod.snd h
    simp at h2
    exact h2.symm
  · simp only [hmd] at h
    rcases hid : md.video_id with _ | vid
    · simp only [hid] at h
      have h2 := congrArg Prod.snd h
      simp at h2
      exact h2.symm
    · simp only [hid] at h
      by_cases hv : vid = ""
      · rw [if_pos hv] at h
        have h2 := congrArg Prod.snd h
        simp at h2
        exact h2.symm
      · rw [if_neg hv] at h
        rcases hbody : storeVideoBody db vid md vd sm cs with e' | dbx
        · simp only [hbody] at h
          have h2 := congrArg Prod.snd h
          simp at h2
          exact h2.symm
        · simp only [hbody] at h
          have h2 := congrArg Prod.fst h
          simp at h2

/-- C2: a `store_video` call that fails leaves the committed state exactly
as it was — the videos table, the chunks table and both FTS indexes roll
back together, so any subsequent `get_video` observes the prior state and
no partially inserted video or chunk subset is visible. -/
theorem store_video_rolls_back (db : DB) (vd : VideoData) (sm : SummaryIn)
    (cs : List ChunkIn) (e : DbError) (db' : DB)
    (hfail : store_video db vd sm cs = (.error e, db')) :
    db' = db ∧ (∀ v, get_video v db' = get_video v db) ∧
      db'.videos_fts = db.videos_fts ∧ db'.video_details_fts = db.video_details_fts := by
  have h := store_video_error_state db vd sm cs e db' hfail
  subst h
  exact ⟨rfl, fun v => rfl, rfl, rfl⟩

/-- Fixture: an empty database. -/
def emptyDb : DB := ⟨[], [], 1, [], []⟩

/-- Fixture: metadata and inputs for a store of video `V1`. -/
def mdV1 : VideoMetadata :=
  ⟨some "V1", some "u", some "t", some "a", some 10, some 5, some "d", some "desc"⟩

/-- Fixture: the `video_data` argument for video `V1`. -/
def vdV1 : VideoData := ⟨some mdV1, some "full"⟩

/-- Fixture: the `summary` argument for video `V1`. -/
def smV1 : SummaryIn := ⟨some "sum", some "tl", some ["x"]⟩

/-- Fixture: a chunk batch whose second chunk violates the NOT NULL
constraint on `chunk_text` (its `'text'` key holds `None`). -/
def csBad : List ChunkIn :=
  [⟨some "one", some [1], some 0, some 1, []⟩,
   ⟨none, some [1], some 1, some 2, []⟩,
   ⟨some "three", some [1], some 2, some 3, []⟩]

/-- Witness for C2: with a fresh `V1` and a batch failing at chunk 2 of 3,
the call fails and the caller-visible state is unchanged. -/
theorem store_video_rolls_back_witness :
    store_video emptyDb vdV1 smV1 csBad = (.error .notNullViolation, emptyDb) ∧
      get_video "V1" (store_video emptyDb vdV1 smV1 csBad).2 = none :=
  ⟨by decide,
    by
      have h := store_video_rolls_back emptyDb vdV1 smV1 csBad .notNullViolation
        (store_video emptyDb vdV1 smV1 csBad).2 (by decide)
      rw [h.2.1 "V1"]
      decide⟩

lemma filter_ne_then_eq_nil {α : Type} (f : α → String) (vid : String) (l : List α) :
    (l.filter (fun a => decide (f a ≠ vid))).filter (fun a => decide (f a = vid)) = [] := by
  rw [List.filter_eq_nil_iff]
  intro a ha
  have h2 := (List.mem_filter.mp ha).2
  simp only [decide_eq_true_eq] at h2 ⊢
  exact h2

/-- C1: a successful `store_video` for an already-present `video_id` fully
replaces it: afterwards exactly one video row with that id exists (the
newly built one), the chunks associated with the id are exactly the newly
supplied ones in order (text, embedding and timestamps all taken from the
new chunks — a full replace, never a partial merge), and every chunk row
now carrying the id is a freshly inserted row (its id is at least the old
AUTOINCREMENT counter, so no leftover chunk from the earlier store
remains). -/
theorem store_video_full_replace (db : DB) (vd : VideoData) (sm : SummaryIn)
    (cs : List ChunkIn) (db' : DB) (md : VideoMetadata) (vid : String)
    (hmd : vd.metadata = some md) (hid : md.video_id = some vid)
    (hex : vid ∈ db.videos.map VideoRow.video_id)
    (hok : store_video db vd sm cs = (.ok (), db')) :
    db'.videos.filter (fun v => decide (v.video_id = vid)) = [storedVideoRow vid md vd sm] ∧
    (db'.video_details.filter (fun c => decide (c.video_id = vid))).map
        (fun r => (r.chunk_text, r.embedding, r.timestamp, r.end_timestamp)) =
      cs.map (fun c => (c.text.getD "", storedEmbedding c, c.timestamp.getD 0,
        c.end_timestamp.getD 0)) ∧
    (∀ r ∈ db'.video_details, r.video_id = vid → db.next_chunk_id ≤ r.chunk_id) := by
  obtain ⟨md', vid', hmd', hid', hv', hbody⟩ := (store_video_ok_iff db vd sm cs db').mp hok
  rw [hmd] at hmd'
  obtain rfl : md = md' := Option.some_inj.mp hmd'
  rw [hid] at hid'
  obtain rfl : vid = vid' := Option.some_inj.mp hid'
  obtain ⟨rows, hvids, hdets, hmap, hall⟩ := storeVideoBody_ok_spec db vid md vd sm cs db' hbody
  have hexT : db.videos.any (fun v => decide (v.video_id = vid)) = true := by
    rw [List.any_eq_true]
    rcases List.mem_map.mp hex with ⟨v, hv, hveq⟩
    exact ⟨v, hv, by simpa using hveq⟩
  rw [hexT, if_pos rfl] at hvids hdets
  refine ⟨?_, ?_, ?_⟩
  · rw [hvids, List.filter_append, filter_ne_then_eq_nil VideoRow.video_id vid]
    have h2 : [storedVideoRow vid md vd sm].filter (fun v => decide (v.video_id = vid)) =
        [storedVideoRow vid md vd sm] := by
      simp [storedVideoRow, mkVideoRow]
    rw [h2, List.nil_append]
  · rw [hdets, List.filter_append, filter_ne_then_eq_nil ChunkRow.video_id vid]
    have h2 : rows.filter (fun c => decide (c.video_id = vid)) = rows :=
      List.filter_eq_self.mpr fun r hr => by simpa using (hall r hr).1
    rw [h2, List.nil_append, hmap]
  · intro r hr hrv
    rw [hdets] at hr
    rcases List.mem_append.mp hr with hr' | hr'
    · have h2 := (List.mem_filter.mp hr').2
      simp only [decide_eq_true_eq] at h2
      exact absurd hrv h2
    · exact (hall r hr').2

/-- Fixture: a database already holding video `V1` with one chunk. -/
def dbWithV1 : DB :=
  ⟨[⟨"V1", "u0", "t0", "a0", 3, none, "d0", none, "s0", none, none, none⟩],
    [⟨1, "V1", "old", some [9], 0, 1, none⟩], 2,
    [⟨"V1", "t0", "s0", none, none, none⟩], [(1, "old")]⟩

/-- Fixture: a two-chunk batch for the re-store of `V1`. -/
def csTwo : List ChunkIn :=
  [⟨some "new1", some [1], some 0, some 1, []⟩,
   ⟨some "new2", none, some 1, some 2, []⟩]

/-- Witness for C1: re-storing `V1` (one old chunk) with two new chunks
leaves exactly the two new chunks and the new video row for `V1`. -/
theorem store_video_full_replace_witness :
    ("V1" ∈ dbWithV1.videos.map VideoRow.video_id) ∧
      ((store_video dbWithV1 vdV1 smV1 csTwo).2.video_details.filter
          (fun c => decide (c.video_id = "V1"))).map
        (fun r => (r.chunk_text, r.embedding, r.timestamp, r.end_timestamp)) =
        csTwo.map (fun c => (c.text.getD "", storedEmbedding c, c.timestamp.getD 0,
          c.end_timestamp.getD 0)) :=
  ⟨by decide,
    (store_video_full_replace dbWithV1 vdV1 smV1 csTwo
      (store_video dbWithV1 vdV1 smV1 csTwo).2 mdV1 "V1" rfl rfl (by decide)
      (by decide)).2.1⟩

/-- `storedEmbedding` written the way C10 states it: an absent embedding
and an explicitly empty one both persist as NULL, anything else is kept. -/
lemma storedEmbedding_eq_claim (c : ChunkIn) :
    storedEmbedding c =
      if c.embedding = none ∨ c.embedding = some [] then none else c.embedding := by
  rcases h : c.embedding with _ | l
  · simp [storedEmbedding, h]
  · by_cases hl : l = [] <;> simp [storedEmbedding, h, hl]

/-- Every result of the similarity scan stems from a chunk row whose
embedding is non-NULL and nonempty. -/
lemma scoredCandidates_source (q : List ℚ) (db : DB) :
    ∀ r ∈ scoredCandidates q db, ∃ c ∈ db.video_details,
      c.chunk_id = r.chunk_id ∧ ∃ vec, c.embedding = some vec ∧ vec ≠ [] := by
  intro r hr
  rcases List.mem_filterMap.mp hr with ⟨c, hc, hcr⟩
  have hcmem := (List.mem_filter.mp hc).1
  rcases hfind : db.videos.find? (fun v => decide (v.video_id = c.video_id)) with _ | v
  · simp only [hfind] at hcr
    exact absurd hcr (by simp)
  · simp only [hfind] at hcr
    rcases he : c.embedding with _ | vec
    · simp only [he] at hcr
      exact absurd hcr (by simp)
    · simp only [he] at hcr
      by_cases hvec : vec = []
      · rw [if_pos hvec] at hcr
        exact absurd hcr (by simp)
      · rw [if_neg hvec] at hcr
        refine ⟨c, hcmem, ?_, vec, he, hvec⟩
        have h2 := Option.some_inj.mp hcr
        rw [← h2]

/-- C10: after a successful `store_video`, the chunk rows stored for the
video carry NULL embeddings exactly for the input chunks whose embedding
was absent or empty (an empty float vector is never stored as a
zero-length blob), and the similarity scan only ever returns chunks whose
stored embedding is non-NULL and nonempty. -/
theorem store_embedding_null_iff_absent_or_empty (db : DB) (vd : VideoData)
    (sm : SummaryIn) (cs : List ChunkIn) (db' : DB) (md : VideoMetadata) (vid : String)
    (hfk : ∀ c ∈ db.video_details, c.video_id ∈ db.videos.map VideoRow.video_id)
    (hmd : vd.metadata = some md) (hid : md.video_id = some vid)
    (hok : store_video db vd sm cs = (.ok (), db')) :
    (db'.video_details.filter (fun c => decide (c.video_id = vid))).map
        ChunkRow.embedding =
      cs.map (fun c => if c.embedding = none ∨ c.embedding = some [] then none
        else c.embedding) ∧
    (∀ q lim r, r ∈ find_similar_chunks q lim db' → ∃ c ∈ db'.video_details,
      c.chunk_id = r.chunk_id ∧ ∃ vec, c.embedding = some vec ∧ vec ≠ []) := by
  obtain ⟨md', vid', hmd', hid', hv', hbody⟩ := (store_video_ok_iff db vd sm cs db').mp hok
  rw [hmd] at hmd'
  obtain rfl : md = md' := Option.some_inj.mp hmd'
  rw [hid] at hid'
  obtain rfl : vid = vid' := Option.some_inj.mp hid'
  obtain ⟨rows, hvids, hdets, hmap, hall⟩ := storeVideoBody_ok_spec db vid md vd sm cs db' hbody
  have hemb : rows.map ChunkRow.embedding = cs.map storedEmbedding := by
    have h2 := congrArg (List.map (fun p : String × Option (List ℚ) × ℚ × ℚ => p.2.1)) hmap
    simpa [List.map_map, Function.comp] using h2
  constructor
  · have hfil : db'.video_details.filter (fun c => decide (c.video_id = vid)) = rows := by
      by_cases hexist : db.videos.any (fun v => decide (v.video_id = vid)) = true
      · rw [hexist, if_pos rfl] at hdets
        rw [hdets, List.filter_append, filter_ne_then_eq_nil ChunkRow.video_id vid,
          List.filter_eq_self.mpr fun r hr => by simpa using (hall r hr).1, List.nil_append]
      · have hexf : db.videos.any (fun v => decide (v.video_id = vid)) = false :=
          Bool.not_eq_true _ |>.mp hexist
        rw [hexf] at hdets
        rw [if_neg Bool.false_ne_true] at hdets
        have hpre : db.video_details.filter (fun c => decide (c.video_id = vid)) = [] := by
          rw [List.filter_eq_nil_iff]
          intro c hc
          simp only [decide_eq_true_eq]
          intro hcv
          have hmem := hfk c hc
          rw [hcv] at hmem
          rcases List.mem_map.mp hmem with ⟨v, hv, hveq⟩
          have : db.videos.any (fun v => decide (v.video_id = vid)) = true :=
            List.any_eq_true.mpr ⟨v, hv, by simpa using hveq⟩
          rw [this] at hexf
          exact Bool.noConfusion hexf
        rw [hdets, List.filter_append, hpre,
          List.filter_eq_self.mpr fun r hr => by simpa using (hall r hr).1, List.nil_append]
    rw [hfil, hemb]
    have : ∀ c ∈ cs, storedEmbedding c =
        (if c.embedding = none ∨ c.embedding = some [] then none else c.embedding) :=
      fun c _ => storedEmbedding_eq_claim c
    exact List.map_congr_left this
  · intro q lim r hr
    have hr2 : r ∈ pySortDescBy SimChunk.similarity (scoredCandidates q db') :=
      List.take_subset lim _ hr
    have hr3 : r ∈ scoredCandidates q db' :=
      (pySortDescBy_perm SimChunk.similarity (scoredCandidates q db')).subset hr2
    exact scoredCandidates_source q db' r hr3

/-- Witness for C10: storing chunks with a present, an absent and an empty
embedding persists `some`, NULL and NULL respectively. -/
theorem store_embedding_null_iff_absent_or_empty_witness :
    ((store_video emptyDb vdV1 smV1
        [⟨some "one", some [1, 2], some 0, some 1, []⟩,
         ⟨some "two", none, some 1, some 2, []⟩,
         ⟨some "three", some [], some 2, some 3, []⟩]).2.video_details.filter
        (fun c => decide (c.video_id = "V1"))).map ChunkRow.embedding =
      [some [1, 2], none, none] :=
  by
    have h := (store_embedding_null_iff_absent_or_empty emptyDb vdV1 smV1
      [⟨some "one", some [1, 2], some 0, some 1, []⟩,
       ⟨some "two", none, some 1, some 2, []⟩,
       ⟨some "three", some [], some 2, some 3, []⟩]
      (store_video emptyDb vdV1 smV1
        [⟨some "one", some [1, 2], some 0, some 1, []⟩,
         ⟨some "two", none, some 1, some 2, []⟩,
         ⟨some "three", some [], some 2, some 3, []⟩]).2 mdV1 "V1"
      (by decide) rfl rfl (by decide)).1
    rw [h]
    decide

/-- C8: `delete_video` returns exactly whether a video row with the id
existed (an unknown id is a normal `false`, not an error), removes the
video's chunks and then the video row, and afterwards `get_video` reports
not-found. -/
theorem delete_video_returns_existence (db : DB) (vid : String) (b : Bool) (db' : DB)
    (h : delete_video db vid = (b, db')) :
    (b = true ↔ vid ∈ db.videos.map VideoRow.video_id) ∧
    get_video vid db' = none ∧
    db'.video_details.filter (fun c => decide (c.video_id = vid)) = [] ∧
    db'.videos.filter (fun v => decide (v.video_id = vid)) = [] := by
  have hb := congrArg Prod.fst h
  have hdb := congrArg Prod.snd h
  simp only [delete_video] at hb hdb
  refine ⟨?_, ?_, ?_, ?_⟩
  · rw [← hb]
    simp only [decide_eq_true_eq, deleteChunkRows]
    rw [List.length_pos]
    constructor
    · intro hne
      rcases List.exists_mem_of_ne_nil _ hne with ⟨v, hv⟩
      rcases List.mem_filter.mp hv with ⟨hv1, hv2⟩
      simp only [decide_eq_true_eq] at hv2
      exact List.mem_map.mpr ⟨v, hv1, hv2⟩
    · intro hmem
      rcases List.mem_map.mp hmem with ⟨v, hv, hveq⟩
      intro hnil
      have : v ∈ db.videos.filter (fun v => decide (v.video_id = vid)) :=
        List.mem_filter.mpr ⟨hv, by simpa using hveq⟩
      rw [hnil] at this
      exact List.not_mem_nil v this
  · rw [← hdb]
    have hfind : (deleteVideoRows (deleteChunkRows db vid) vid).videos.find?
        (fun r => decide (r.video_id = vid)) = none := by
      rw [List.find?_eq_none]
      intro v hv
      have h2 := (List.mem_filter.mp hv).2
      simp only [decide_eq_true_eq] at h2 ⊢
      exact h2
    rw [get_video, hfind]
  · rw [← hdb]
    exact filter_ne_then_eq_nil ChunkRow.video_id vid _
  · rw [← hdb]
    exact filter_ne_then_eq_nil VideoRow.video_id vid _

/-- Witness for C8: deleting the present `V1` from the fixture database
returns true and empties its rows; the bundled hypothesis is evaluated
concretely. -/
theorem delete_video_returns_existence_witness :
    (true = true ↔ "V1" ∈ dbWithV1.videos.map VideoRow.video_id) ∧
      get_video "V1" (delete_video dbWithV1 "V1").2 = none ∧
      (delete_video dbWithV1 "V1").2.video_details.filter
        (fun c => decide (c.video_id = "V1")) = [] ∧
      (delete_video dbWithV1 "V1").2.videos.filter
        (fun v => decide (v.video_id = "V1")) = [] :=
  delete_video_returns_existence dbWithV1 "V1" true (delete_video dbWithV1 "V1").2
    (by decide)

end YtScribe
